import Mathlib

/-!
# Model of `intersection_update.cc` and `intersection_update2.cc`

Both C++ files implement in-place intersection update of sorted containers:
remove from the mutable container `bc` every element whose value is missing
from the read-only container `ac`.

Containers are modelled as `List α` over a linearly ordered element type
(sorted-ness, where the algorithms need it, appears as a `List.Sorted (· ≤ ·)`
hypothesis: `std::set` contents are strictly ascending, `std::multiset`,
sorted `std::list` and sorted `std::vector` contents are weakly ascending,
and both are covered by `· ≤ ·`).

Iterators over node-based containers (`set`, `multiset`, `list`), whose
`erase` leaves every other iterator valid, are modelled as list suffixes: the
iterator range `[it, end)` is the list of elements it still traverses, an
increment drops the head, and an element erased behind the cursor simply
never re-appears in the traversal.  Iterators into a `std::vector` are
modelled as indices, since there `erase` shifts the later elements left.

The functions with an `S` suffix are state-threaded variants of the same
loops: they carry the read-only container `ac` through every step and return
the pair (final `ac`, final `bc`), so that the frame property "`ac` is
identical before and after the call" is a statement about the model rather
than a typing convention.
-/

namespace IntersectionUpdateModel

variable {α : Type} [LinearOrder α]

/-- Probe variant `IntersectionUpdateLargeAc` (`intersection_update.cc`
lines 10–23 at `std::set`, and `intersection_update2.cc` lines 14–33 for the
node-based `bc` containers `set`, `multiset`, sorted `list`, whose `erase`
keeps all other iterators valid).  The loop visits each element `*b` of `bc`
once; if `ac.find(*b) == a_end` (the value is not in `ac`) the element is
erased, otherwise the cursor just advances. -/
def IntersectionUpdateLargeAc (ac : List α) : List α → List α
  | [] => []
  | b :: bs =>
    if b ∈ ac then b :: IntersectionUpdateLargeAc ac bs
    else IntersectionUpdateLargeAc ac bs

/-- The loop of `IntersectionUpdateLargeAc` of `intersection_update2.cc`
instantiated at `bc : std::vector` (instantiated by `main`, line 120), under
an index embedding of vector iterators: the cursor `b` is an index, `erase`
shifts the later elements left and shrinks the vector, and `b_end` is
captured once before the loop (line 23) and never refreshed.  The `Nat`
argument counts the remaining distance `b_end - b`; it reaches `0` exactly
when `b == b_end`, the loop's only exit.  In the erase branch the source runs
`b_old = b; ++b; bc->erase(b_old)`, so the traversal continues at index
`b + 1` of the shrunken vector.  Dereferencing an index at or past the
current size is the out-of-range branch and yields `none`. -/
def probeVecLoop (ac : List α) : List α → Nat → Nat → Option (List α)
  | bc, _, 0 => some bc
  | bc, b, k + 1 =>
    match bc[b]? with
    | none => none
    | some x =>
      if x ∈ ac then probeVecLoop ac bc (b + 1) k
      else probeVecLoop ac (bc.eraseIdx b) (b + 1) k

/-- Entry point of the probe variant at `bc : std::vector`: the cursor starts
at `bc.begin()` (index `0`) and the captured `b_end` is `bc.end()` at entry
(index `bc.length`), so the remaining distance is `bc.length`. -/
def IntersectionUpdateLargeAcVec (ac bc : List α) : Option (List α) :=
  probeVecLoop ac bc 0 bc.length

/-- State-threaded probe variant: same recursion as
`IntersectionUpdateLargeAc`, carrying the read-only `ac` through every step
and returning the final contents of both containers.  No step produces
anything but the `ac` it was handed (the loop body only reads `ac`, via
`ac.find`). -/
def IntersectionUpdateLargeAcS (ac : List α) : List α → List α × List α
  | [] => (ac, [])
  | b :: bs =>
    if b ∈ ac then
      ((IntersectionUpdateLargeAcS ac bs).1, b :: (IntersectionUpdateLargeAcS ac bs).2)
    else IntersectionUpdateLargeAcS ac bs

namespace Update2

/-- General merge variant `IntersectionUpdate` of `intersection_update2.cc`
(lines 38–70), used for the node-based `bc` containers (`set`, `multiset`,
sorted `list`).  The two arguments are the iterator ranges `[a, a_end)` over
`ac` and `[b, b_end)` over `bc`; the value returned is the final contents of
`bc`, i.e. the elements the loop kept (an element erased by the loop, and the
whole range `[b, b_end)` erased after the loop by line 69, are gone).  On
`*a < *b` only `a` advances; on `*a > *b` the element at `b` is erased and
the cursor moves on; on equality the element is kept and only `b` advances
(line 66: deliberately no `++a`, in case `ac` is a multiset). -/
def IntersectionUpdate : List α → List α → List α
  | [], _ => []
  | _ :: _, [] => []
  | a :: as, b :: bs =>
    if a < b then IntersectionUpdate as (b :: bs)
    else if b < a then IntersectionUpdate (a :: as) bs
    else b :: IntersectionUpdate (a :: as) bs
termination_by as bs => as.length + bs.length

/-- `std::iter_swap(b, --b_high)` of the vector specialization
(`intersection_update2.cc` line 96) acting on the live region `b :: bs` of
the vector: `b_high` moves down one slot, the disqualified element at `b`
goes to that slot (now outside the live region, awaiting truncation), and the
element that was there comes to position `b`.  The argument is the part `bs`
of the live region after the cursor; the result is the live region left for
the loop: the former last live element followed by the rest.  When `bs` is
empty the swap is of `b` with itself and the live region becomes empty. -/
def swapToHigh (bs : List α) : List α :=
  match bs.getLast? with
  | none => []
  | some z => z :: bs.dropLast

/-- Vector specialization of the merge variant `IntersectionUpdate`
(`intersection_update2.cc` lines 80–103).  The first argument is the iterator
range `[a, a_end)` over `ac`, the second the live region `[b, b_high)` of the
vector.  The value returned is the final contents of the vector: exactly the
kept prefix `[begin, b)`, since `bc->erase(b, bc->end())` (line 102) removes
everything from the final cursor position on, live region and deferred
`[b_high, end)` zone alike.  On `*a < *b` only `a` advances; on `*a > *b` the
source swaps the element at `b` with the one below `b_high` (`swapToHigh`);
on equality the element is kept and the source advances both cursors
(lines 98–100: `++a; ++b;`). -/
def IntersectionUpdateVec : List α → List α → List α
  | [], _ => []
  | _ :: _, [] => []
  | a :: as, b :: bs =>
    if a < b then IntersectionUpdateVec as (b :: bs)
    else if b < a then IntersectionUpdateVec (a :: as) (swapToHigh bs)
    else b :: IntersectionUpdateVec as bs
termination_by as bs => as.length + bs.length
decreasing_by
· simp
· have h : (swapToHigh bs).length ≤ bs.length := by
    unfold swapToHigh
    cases hgl : bs.getLast? with
    | none => simp
    | some z =>
      have hne : bs ≠ [] := by
        rintro rfl
        simp at hgl
      have hpos : 0 < bs.length := List.length_pos.mpr hne
      simp [List.length_dropLast]
      omega
  simp
  omega
· simp
  omega

/-- State-threaded version of the general merge variant: the container `ac`
is carried through every step (the iterator ranges recurse as in
`IntersectionUpdate`) and the pair (final `ac`, final `bc`) is returned.  No
step produces anything but the `ac` it was handed (the loop body only
dereferences and advances the `a` cursor, never writes through it). -/
def IntersectionUpdateS (ac : List α) : List α → List α → List α × List α
  | [], _ => (ac, [])
  | _ :: _, [] => (ac, [])
  | a :: as, b :: bs =>
    if a < b then IntersectionUpdateS ac as (b :: bs)
    else if b < a then IntersectionUpdateS ac (a :: as) bs
    else ((IntersectionUpdateS ac (a :: as) bs).1, b :: (IntersectionUpdateS ac (a :: as) bs).2)
termination_by as bs => as.length + bs.length

/-- State-threaded version of the vector specialization, analogous to
`IntersectionUpdateS`. -/
def IntersectionUpdateVecS (ac : List α) : List α → List α → List α × List α
  | [], _ => (ac, [])
  | _ :: _, [] => (ac, [])
  | a :: as, b :: bs =>
    if a < b then IntersectionUpdateVecS ac as (b :: bs)
    else if b < a then IntersectionUpdateVecS ac (a :: as) (swapToHigh bs)
    else ((IntersectionUpdateVecS ac as bs).1, b :: (IntersectionUpdateVecS ac as bs).2)
termination_by as bs => as.length + bs.length
decreasing_by
· simp
· have h : (swapToHigh bs).length ≤ bs.length := by
    unfold swapToHigh
    cases hgl : bs.getLast? with
    | none => simp
    | some z =>
      have hne : bs ≠ [] := by
        rintro rfl
        simp at hgl
      have hpos : 0 < bs.length := List.length_pos.mpr hne
      simp [List.length_dropLast]
      omega
  simp
  omega
· simp
  omega

end Update2

namespace Update1

/-- Merge loop of `IntersectionUpdate` of `intersection_update.cc`
(lines 35–45), over the iterator ranges `[a, a_end)` and `[b, b_end)`; the
value is the final contents of `bc` (kept elements only, the tail `[b, b_end)`
being erased after the loop by line 46).  Unlike the general variant of
`intersection_update2.cc`, the equal branch advances both cursors
(lines 41–44: `++a; ++b;`). -/
def mergeLoop : List α → List α → List α
  | [], _ => []
  | _ :: _, [] => []
  | a :: as, b :: bs =>
    if a < b then mergeLoop as (b :: bs)
    else if b < a then mergeLoop (a :: as) bs
    else b :: mergeLoop as bs
termination_by as bs => as.length + bs.length

/-- `IntersectionUpdate` of `intersection_update.cc` (lines 29–47).  `a`
starts at `ac.begin()` (line 31) but `a_end` is initialized from
`ac.begin()` as well (line 32), so the range `[a, a_end)` available to the
loop is the empty prefix `ac.take 0` of `ac`, not the whole list. -/
def IntersectionUpdate (ac bc : List α) : List α :=
  mergeLoop (ac.take 0) bc

/-- State-threaded version of the merge loop of `intersection_update.cc`,
analogous to `Update2.IntersectionUpdateS`. -/
def mergeLoopS (ac : List α) : List α → List α → List α × List α
  | [], _ => (ac, [])
  | _ :: _, [] => (ac, [])
  | a :: as, b :: bs =>
    if a < b then mergeLoopS ac as (b :: bs)
    else if b < a then mergeLoopS ac (a :: as) bs
    else ((mergeLoopS ac as bs).1, b :: (mergeLoopS ac as bs).2)
termination_by as bs => as.length + bs.length

/-- State-threaded version of `IntersectionUpdate` of
`intersection_update.cc`. -/
def IntersectionUpdateS (ac bc : List α) : List α × List α :=
  mergeLoopS ac (ac.take 0) bc

end Update1

/-- The behaviour the specification ascribes to both variants: keep exactly
those occurrences of `bc` whose value is present in `ac`, in their original
order (the multiset-intersection-by-presence filter). -/
def specIntersection (ac bc : List α) : List α :=
  bc.filter (fun x => decide (x ∈ ac))

/-- The probe variant (over node-based `bc`) computes, for every input sorted
or not, exactly the filter of `bc` by membership in `ac`. -/
theorem IntersectionUpdateLargeAc_eq_filter (ac bc : List α) :
    IntersectionUpdateLargeAc ac bc = specIntersection ac bc := by
  induction bc with
  | nil => rfl
  | cons b bs ih =>
    by_cases hb : b ∈ ac <;>
      simp [IntersectionUpdateLargeAc, specIntersection, hb,
        List.filter_cons, ih]

theorem IntersectionUpdateLargeAcS_eq (ac bc : List α) :
    IntersectionUpdateLargeAcS ac bc = (ac, IntersectionUpdateLargeAc ac bc) := by
  induction bc with
  | nil => rfl
  | cons b bs ih =>
    by_cases hb : b ∈ ac <;>
      simp [IntersectionUpdateLargeAcS, IntersectionUpdateLargeAc, hb, ih]

namespace Update2

/-- The general merge variant, run on ascending `ac` and `bc`, computes
exactly the filter of `bc` by membership in `ac`. -/
theorem IntersectionUpdate_eq_filter :
    ∀ ac bc : List α, ac.Sorted (· ≤ ·) → bc.Sorted (· ≤ ·) →
      IntersectionUpdate ac bc = specIntersection ac bc := by
  intro ac bc
  induction ac, bc using IntersectionUpdate.induct with
  | case1 bc => intro _ _; simp [IntersectionUpdate, specIntersection]
  | case2 a as => intro _ _; simp [IntersectionUpdate, specIntersection]
  | case3 a as b bs hab ih =>
    intro ha hb
    rw [IntersectionUpdate, if_pos hab, ih (List.Sorted.of_cons ha) hb]
    unfold specIntersection
    refine (List.filter_congr ?_).symm
    intro x hx
    have hbx : b ≤ x := by
      rcases List.mem_cons.mp hx with rfl | hx
      · exact le_refl x
      · exact (List.sorted_cons.mp hb).1 x hx
    have : x ≠ a := by
      intro h
      exact absurd (h ▸ (hab.trans_le hbx)) (lt_irrefl a)
    simp [List.mem_cons, this]
  | case4 a as b bs hab hba ih =>
    intro ha hb
    have hbmem : b ∉ a :: as := by
      intro hmem
      rcases List.mem_cons.mp hmem with rfl | hmem
      · exact absurd hba (lt_irrefl b)
      · exact absurd (hba.trans_le ((List.sorted_cons.mp ha).1 b hmem))
          (lt_irrefl b)
    rw [IntersectionUpdate, if_neg hab, if_pos hba,
      ih ha (List.Sorted.of_cons hb)]
    unfold specIntersection
    rw [List.filter_cons]
    simp [hbmem]
  | case5 a as b bs hab hba ih =>
    intro ha hb
    have : a = b := le_antisymm (not_lt.mp hba) (not_lt.mp hab)
    rw [IntersectionUpdate, if_neg hab, if_neg hba,
      ih ha (List.Sorted.of_cons hb)]
    unfold specIntersection
    rw [List.filter_cons]
    simp [List.mem_cons, this.symm]

/-- Every element the vector specialization keeps is one of the successive
values of the `a` cursor: the result is a sublist of `ac`, for every input,
sorted or not. -/
theorem IntersectionUpdateVec_sublist :
    ∀ ac bc : List α, List.Sublist (IntersectionUpdateVec ac bc) ac := by
  intro ac bc
  induction ac, bc using IntersectionUpdateVec.induct with
  | case1 bc => rw [IntersectionUpdateVec]
  | case2 a as => rw [IntersectionUpdateVec]; exact List.nil_sublist _
  | case3 a as b bs hab ih =>
    rw [IntersectionUpdateVec, if_pos hab]
    exact ih.cons a
  | case4 a as b bs hab hba ih =>
    rw [IntersectionUpdateVec, if_neg hab, if_pos hba]
    exact ih
  | case5 a as b bs hab hba ih =>
    have : a = b := le_antisymm (not_lt.mp hba) (not_lt.mp hab)
    rw [IntersectionUpdateVec, if_neg hab, if_neg hba]
    exact this ▸ ih.cons₂ a

/-- On a `bc` that is already a sublist of an ascending `ac`, the vector
specialization keeps everything: no swap branch ever fires and the whole
input survives. -/
theorem IntersectionUpdateVec_of_sublist :
    ∀ ac : List α, ac.Sorted (· ≤ ·) →
      ∀ bc : List α, List.Sublist bc ac → IntersectionUpdateVec ac bc = bc := by
  intro ac
  induction ac with
  | nil =>
    intro _ bc hbc
    rw [List.sublist_nil.mp hbc, IntersectionUpdateVec]
  | cons a as ih =>
    intro ha bc hbc
    match bc, hbc with
    | [], _ => rw [IntersectionUpdateVec]
    | b :: bs, hbc =>
      cases hbc with
      | cons₂ _ hbs =>
        rw [IntersectionUpdateVec, if_neg (lt_irrefl a), if_neg (lt_irrefl a),
          ih (List.Sorted.of_cons ha) bs hbs]
      | cons _ hcons =>
        have hb : b ∈ as := hcons.subset (List.mem_cons_self b bs)
        have hab : a ≤ b := (List.sorted_cons.mp ha).1 b hb
        rcases lt_or_eq_of_le hab with hlt | heq
        · rw [IntersectionUpdateVec, if_pos hlt,
            ih (List.Sorted.of_cons ha) (b :: bs) hcons]
        · have hbs : List.Sublist bs as :=
            ((List.sublist_cons_self b bs).trans hcons)
          rw [IntersectionUpdateVec, if_neg (heq ▸ lt_irrefl a),
            if_neg (heq ▸ lt_irrefl a),
            ih (List.Sorted.of_cons ha) bs hbs]

theorem IntersectionUpdateS_eq :
    ∀ ac aIt bc : List α,
      IntersectionUpdateS ac aIt bc = (ac, IntersectionUpdate aIt bc) := by
  intro ac aIt bc
  induction aIt, bc using IntersectionUpdate.induct with
  | case1 bc => rw [IntersectionUpdateS, IntersectionUpdate]
  | case2 a as => rw [IntersectionUpdateS, IntersectionUpdate]
  | case3 a as b bs hab ih =>
    rw [IntersectionUpdateS, IntersectionUpdate, if_pos hab, if_pos hab, ih]
  | case4 a as b bs hab hba ih =>
    rw [IntersectionUpdateS, IntersectionUpdate, if_neg hab, if_pos hba,
      if_neg hab, if_pos hba, ih]
  | case5 a as b bs hab hba ih =>
    rw [IntersectionUpdateS, IntersectionUpdate, if_neg hab, if_neg hba,
      if_neg hab, if_neg hba, ih]

theorem IntersectionUpdateVecS_eq :
    ∀ ac aIt bc : List α,
      IntersectionUpdateVecS ac aIt bc = (ac, IntersectionUpdateVec aIt bc) := by
  intro ac aIt bc
  induction aIt, bc using IntersectionUpdateVec.induct with
  | case1 bc => rw [IntersectionUpdateVecS, IntersectionUpdateVec]
  | case2 a as => rw [IntersectionUpdateVecS, IntersectionUpdateVec]
  | case3 a as b bs hab ih =>
    rw [IntersectionUpdateVecS, IntersectionUpdateVec, if_pos hab, if_pos hab, ih]
  | case4 a as b bs hab hba ih =>
    rw [IntersectionUpdateVecS, IntersectionUpdateVec, if_neg hab, if_pos hba,
      if_neg hab, if_pos hba, ih]
  | case5 a as b bs hab hba ih =>
    rw [IntersectionUpdateVecS, IntersectionUpdateVec, if_neg hab, if_neg hba,
      if_neg hab, if_neg hba, ih]

end Update2

namespace Update1

theorem mergeLoopS_eq :
    ∀ ac aIt bc : List α, mergeLoopS ac aIt bc = (ac, mergeLoop aIt bc) := by
  intro ac aIt bc
  induction aIt, bc using mergeLoop.induct with
  | case1 bc => rw [mergeLoopS, mergeLoop]
  | case2 a as => rw [mergeLoopS, mergeLoop]
  | case3 a as b bs hab ih =>
    rw [mergeLoopS, mergeLoop, if_pos hab, if_pos hab, ih]
  | case4 a as b bs hab hba ih =>
    rw [mergeLoopS, mergeLoop, if_neg hab, if_pos hba,
      if_neg hab, if_pos hba, ih]
  | case5 a as b bs hab hba ih =>
    rw [mergeLoopS, mergeLoop, if_neg hab, if_neg hba,
      if_neg hab, if_neg hba, ih]

end Update1

/-- The specified behaviour is idempotent: filtering an already-filtered list
again changes nothing. -/
theorem specIntersection_idem (ac bc : List α) :
    specIntersection ac (specIntersection ac bc) = specIntersection ac bc := by
  simp [specIntersection, List.filter_filter]

/-- Claim C1: the merge variant (`IntersectionUpdate`) and the probe variant
(`IntersectionUpdateLargeAc`) are claimed to leave `bc` holding identical
final contents on every pair of ascending inputs, for every supported
embedding of `bc` including the vector specialization of the merge variant.
The code falsifies this: on `ac = [2,4,6]`, `bc = [1,2,3,4,5]` the vector
specialization of the merge variant empties `bc`, while the probe variant and
the general merge variant both leave `[2,4]`.  This theorem evaluates all
three entry points of `intersection_update2.cc` at that failing input. -/
theorem claim_C1_eval :
    Update2.IntersectionUpdateVec [2, 4, 6] [1, 2, 3, 4, 5] = ([] : List ℕ) ∧
    IntersectionUpdateLargeAc [2, 4, 6] [1, 2, 3, 4, 5] = ([2, 4] : List ℕ) ∧
    Update2.IntersectionUpdate [2, 4, 6] [1, 2, 3, 4, 5] = ([2, 4] : List ℕ) := by
  refine ⟨?_, by decide, ?_⟩
  · simp [Update2.IntersectionUpdateVec, Update2.swapToHigh]
  · simp [Update2.IntersectionUpdate]

/-- Claim C2: in the merge variant of `intersection_update.cc`, `a_end` is
initialized from `ac.begin()` instead of `ac.end()` (line 32), so the merge
loop exits immediately and the trailing `erase(b, b_end)` removes every
element: for every input pair, the function leaves `bc` empty. -/
theorem claim_C2 (ac bc : List α) : Update1.IntersectionUpdate ac bc = [] := by
  simp [Update1.IntersectionUpdate, Update1.mergeLoop]

/-- Claim C3 (code bug): the vector specialization of the merge variant is
claimed to terminate with `bc` equal to the ascending sequence of exactly the
original `bc` occurrences whose value is present in `ac`.  It does not: on
`ac = [2,3]`, `bc = [1,2,3]` the disqualifying swap of `1` to the tail
destroys the sorted-ness of the live region (`bc` becomes `[3,2,1]`), the
`a` cursor then skips past `2`, and the function returns `[3]` where the
specified survivor list is `[2,3]`. -/
theorem claim_C3_eval :
    Update2.IntersectionUpdateVec [2, 3] [1, 2, 3] = ([3] : List ℕ) ∧
    specIntersection [2, 3] [1, 2, 3] = ([2, 3] : List ℕ) := by
  refine ⟨?_, by decide⟩
  simp [Update2.IntersectionUpdateVec, Update2.swapToHigh]

/-- Claim C4 (code bug): `IntersectionUpdateLargeAc` is claimed to leave in
`bc` exactly the occurrences whose value is in `ac` for every supported `bc`
embedding, including a sorted vector.  For the node-based embeddings this is
exactly what happens (second conjunct, with no sorted-ness needed at all),
but at `bc : std::vector` the stale `b_end` and the invalidated cursor make
the loop skip the element shifted into the erased slot and then read past the
shrunken end: on `ac = [2]`, `bc = [1,2]` the index embedding reaches its
out-of-range branch instead of producing `[2]`. -/
theorem claim_C4_eval :
    IntersectionUpdateLargeAcVec [2] [1, 2] = (none : Option (List ℕ)) ∧
    ∀ ac bc : List ℕ, IntersectionUpdateLargeAc ac bc = specIntersection ac bc :=
  ⟨by decide, fun ac bc => IntersectionUpdateLargeAc_eq_filter ac bc⟩

/-- Claim C5: the general merge variant of `intersection_update2.cc`, on
ascending `ac` and ascending node-based `bc` (set, multiset, sorted list),
leaves `bc` holding exactly the elements present in both, in their original
relative order, each qualifying duplicate occurrence of `bc` retained
independently — that is, exactly the membership filter of `bc` by `ac`. -/
theorem claim_C5 (ac bc : List α) (ha : ac.Sorted (· ≤ ·))
    (hb : bc.Sorted (· ≤ ·)) :
    Update2.IntersectionUpdate ac bc = specIntersection ac bc :=
  Update2.IntersectionUpdate_eq_filter ac bc ha hb

/-- Witness for claim C5 at `ac = [2,4,6]`, `bc = [1,2,2,4,5]`: both
sorted-ness hypotheses hold and the merge variant returns the filter
`[2,2,4]`, duplicates retained. -/
theorem claim_C5_witness :
    Update2.IntersectionUpdate [2, 4, 6] [1, 2, 2, 4, 5] = ([2, 2, 4] : List ℕ) := by
  rw [claim_C5 [2, 4, 6] [1, 2, 2, 4, 5] (by decide) (by decide)]
  decide

/-- Claim C6 as stated is false: it asserts that EVERY merge-variant
implementation advances only the `b` cursor on equal elements, and that in
particular `ac = [5,10]`, `bc = [5,5,7,10]` yields `[5,5,10]`.  The vector
specialization of `intersection_update2.cc` advances both cursors on
equality (`++a; ++b;`, lines 98–100) and on that very input returns `[5,10]`,
dropping the duplicate. -/
theorem claim_C6_counterexample :
    Update2.IntersectionUpdateVec [5, 10] [5, 5, 7, 10] ≠ ([5, 5, 10] : List ℕ) := by
  have h : Update2.IntersectionUpdateVec [5, 10] [5, 5, 7, 10] = ([5, 10] : List ℕ) := by
    simp [Update2.IntersectionUpdateVec, Update2.swapToHigh]
  rw [h]
  decide

/-- Claim C6, amended: only the GENERAL merge variant of
`intersection_update2.cc` keeps the `bc` element and advances the `b` cursor
alone on equality, so consecutive equal `bc` values each match the same `ac`
element and `ac = [5,10]`, `bc = [5,5,7,10]` yields `[5,5,10]` there
(first two conjuncts); the merge variant of `intersection_update.cc` and the
vector specialization advance both cursors on equality, and the vector
specialization consequently drops the duplicate, yielding `[5,10]` (last two
conjuncts). -/
theorem claim_C6_amended :
    (∀ (a b : ℕ) (as bs : List ℕ), a = b →
      Update2.IntersectionUpdate (a :: as) (b :: bs) =
        b :: Update2.IntersectionUpdate (a :: as) bs) ∧
    Update2.IntersectionUpdate [5, 10] [5, 5, 7, 10] = ([5, 5, 10] : List ℕ) ∧
    (∀ (a b : ℕ) (as bs : List ℕ), a = b →
      Update1.mergeLoop (a :: as) (b :: bs) = b :: Update1.mergeLoop as bs) ∧
    Update2.IntersectionUpdateVec [5, 10] [5, 5, 7, 10] = ([5, 10] : List ℕ) := by
  refine ⟨?_, ?_, ?_, ?_⟩
  · rintro a b as bs rfl
    rw [Update2.IntersectionUpdate, if_neg (lt_irrefl a), if_neg (lt_irrefl a)]
  · simp [Update2.IntersectionUpdate]
  · rintro a b as bs rfl
    rw [Update1.mergeLoop, if_neg (lt_irrefl a), if_neg (lt_irrefl a)]
  · simp [Update2.IntersectionUpdateVec, Update2.swapToHigh]

/-- Witness for the two hypothesis-bearing conjuncts of the amended claim C6,
instantiated at the spec's own example (`a = b = 5`). -/
theorem claim_C6_amended_witness :
    Update2.IntersectionUpdate [5, 10] [5, 5, 7, 10] =
      5 :: Update2.IntersectionUpdate ([5, 10] : List ℕ) [5, 7, 10] ∧
    Update1.mergeLoop [5, 10] [5, 5, 7, 10] =
      5 :: Update1.mergeLoop ([10] : List ℕ) [5, 7, 10] :=
  ⟨claim_C6_amended.1 5 5 [10] [5, 7, 10] rfl,
   claim_C6_amended.2.2.1 5 5 [10] [5, 7, 10] rfl⟩

/-- Claim C7 (code bug): the probe variant is claimed, for every supported
`bc` embedding including a sorted vector, to continue after each removal at
the next surviving element, testing every original occurrence exactly once.
For node-based `bc` that is what happens (second conjunct: `2` and `3` are
each tested, `[3]` survives), but at `bc : std::vector` the index embedding
skips the element shifted into the erased slot and then runs past the
shrunken end: on `ac = [3]`, `bc = [1,2,3]`, after `1` is erased the shifted
`2` is never tested and the loop reaches its out-of-range branch. -/
theorem claim_C7_eval :
    IntersectionUpdateLargeAcVec [3] [1, 2, 3] = (none : Option (List ℕ)) ∧
    IntersectionUpdateLargeAc [3] [1, 2, 3] = ([3] : List ℕ) := by
  exact ⟨by decide, by decide⟩

/-- Claim C8: none of the four entry points mutates `ac`.  In the
state-threaded embeddings, which carry `ac` through every loop step and
return the final contents of both containers, the `ac` component of the
result is always the input `ac`, and the `bc` component is the value of the
corresponding plain embedding. -/
theorem claim_C8 (ac bc : List α) :
    (IntersectionUpdateLargeAcS ac bc).1 = ac ∧
    (IntersectionUpdateLargeAcS ac bc).2 = IntersectionUpdateLargeAc ac bc ∧
    (Update2.IntersectionUpdateS ac ac bc).1 = ac ∧
    (Update2.IntersectionUpdateS ac ac bc).2 = Update2.IntersectionUpdate ac bc ∧
    (Update2.IntersectionUpdateVecS ac ac bc).1 = ac ∧
    (Update2.IntersectionUpdateVecS ac ac bc).2 = Update2.IntersectionUpdateVec ac bc ∧
    (Update1.IntersectionUpdateS ac bc).1 = ac ∧
    (Update1.IntersectionUpdateS ac bc).2 = Update1.IntersectionUpdate ac bc := by
  simp [IntersectionUpdateLargeAcS_eq, Update2.IntersectionUpdateS_eq,
    Update2.IntersectionUpdateVecS_eq, Update1.IntersectionUpdateS,
    Update1.mergeLoopS_eq, Update1.IntersectionUpdate]

/-- Claim C9: all three entry points of `intersection_update2.cc` are
idempotent on ascending inputs: running the same operation again on the
already-reduced `bc` against the same `ac` changes nothing.  (For the vector
specialization this holds even though its result is wrong: every element it
keeps matched an `ac` cursor value, so its output is a sublist of `ac` and a
second run keeps all of it.) -/
theorem claim_C9 (ac bc : List α) (ha : ac.Sorted (· ≤ ·))
    (hb : bc.Sorted (· ≤ ·)) :
    IntersectionUpdateLargeAc ac (IntersectionUpdateLargeAc ac bc) =
      IntersectionUpdateLargeAc ac bc ∧
    Update2.IntersectionUpdate ac (Update2.IntersectionUpdate ac bc) =
      Update2.IntersectionUpdate ac bc ∧
    Update2.IntersectionUpdateVec ac (Update2.IntersectionUpdateVec ac bc) =
      Update2.IntersectionUpdateVec ac bc := by
  refine ⟨?_, ?_, ?_⟩
  · rw [IntersectionUpdateLargeAc_eq_filter ac bc,
      IntersectionUpdateLargeAc_eq_filter ac (specIntersection ac bc),
      specIntersection_idem]
  · have h1 := Update2.IntersectionUpdate_eq_filter ac bc ha hb
    have hb' : (specIntersection ac bc).Sorted (· ≤ ·) :=
      hb.filter (fun x => decide (x ∈ ac))
    rw [h1, Update2.IntersectionUpdate_eq_filter ac (specIntersection ac bc) ha hb',
      specIntersection_idem]
  · exact Update2.IntersectionUpdateVec_of_sublist ac ha _
      (Update2.IntersectionUpdateVec_sublist ac bc)

/-- Witness for claim C9 at `ac = [2,4,6]`, `bc = [1,2,3,4,5]`: both
sorted-ness hypotheses hold and all three idempotence equations follow. -/
theorem claim_C9_witness :
    IntersectionUpdateLargeAc [2, 4, 6]
        (IntersectionUpdateLargeAc [2, 4, 6] [1, 2, 3, 4, 5]) =
      IntersectionUpdateLargeAc [2, 4, 6] ([1, 2, 3, 4, 5] : List ℕ) ∧
    Update2.IntersectionUpdate [2, 4, 6]
        (Update2.IntersectionUpdate [2, 4, 6] [1, 2, 3, 4, 5]) =
      Update2.IntersectionUpdate [2, 4, 6] ([1, 2, 3, 4, 5] : List ℕ) ∧
    Update2.IntersectionUpdateVec [2, 4, 6]
        (Update2.IntersectionUpdateVec [2, 4, 6] [1, 2, 3, 4, 5]) =
      Update2.IntersectionUpdateVec [2, 4, 6] ([1, 2, 3, 4, 5] : List ℕ) :=
  claim_C9 [2, 4, 6] [1, 2, 3, 4, 5] (by decide) (by decide)

/-- Claim C10 cites `ac = [], bc = [1]` as an input reaching the out-of-range
branch of the stale-`b_end` vector loop, but on that input the loop does NOT
reach it: the single erase advances the cursor to index `1`, which equals the
stale `b_end`, so the loop exits normally with `bc` empty. -/
theorem claim_C10_counterexample :
    IntersectionUpdateLargeAcVec ([] : List ℕ) [1] = some [] := by
  decide

/-- Claim C10, amended: in `IntersectionUpdateLargeAc` of
`intersection_update2.cc` the end cursor `b_end` is captured once before the
loop and never refreshed, and under the index embedding of a vector `bc` the
cursor can run past the shrunken end after a removal, reaching the
out-of-range branch — the smallest such inputs need two elements in `bc`,
e.g. `ac = []`, `bc = [1,2]` (not the single-element `bc = [1]` the claim
offers, where the loop exits exactly at the stale `b_end`). -/
theorem claim_C10_amended :
    IntersectionUpdateLargeAcVec ([] : List ℕ) [1, 2] = none := by
  decide

end IntersectionUpdateModel
